import Mathlib

/-!
The program llheadtail_main.c : loading FASTA records into a head/tail linked list.

A shallow embedding of `src/llheadtail_main.c` (`processFasta`,
`processFastaRepeatedly`, `usage`, `main`).

Conventions of the embedding.

* A C `int` or `long` is an `Int`.  The counters `recordNumber` and `lineNumber` are
  exact integers; they are the values of the source's 32-bit `int` variables as long as
  they stay within `INT_MIN .. INT_MAX`, and signed overflow is undefined in C.  The
  invariant that speaks of `lineNumber` is stated for the runs whose line count fits in
  an `int`, and shows that both counters then stay in that range.
* A pointer to a list node is an `Option Nat`: `none` is `NULL`, `some a` is the node
  stored at index `a` of the node heap.
* What the program writes (standard output and standard error together, in program
  order) and the calls of `fopen` it makes are recorded as a list of `Event`s.
* Timing (`clock`, the `double` arithmetic on seconds) is not modelled; the two timing
  lines of `processFastaRepeatedly` are events without a payload.
-/

namespace LLHeadTail

/-! ## Data model -/

/-- Modelled from the spec: the type `FASTArecord` of `fasta.h`, which is not under
`src/`.  The spec's data model gives a record a description (header text) and the
sequence data. -/
structure FASTArecord where
  description : String
  sequence : String
deriving DecidableEq, Repr

/-- Modelled from the spec: one call of `fastaReadRecord` (`fasta.h`, not under `src/`).
The spec's reader contract: the call returns a positive count of lines consumed together
with the record read, zero at a clean end of stream, or a negative value on malformed
input.  `status` is the returned `int`, `record` what the call left in `fRecord`. -/
structure ReadResult where
  status : Int
  record : FASTArecord
deriving DecidableEq, Repr

/-- Modelled from the spec: the type `LLvNode` of `LLvNode.h`, which is not under `src/`.
A node owns a key, a value and the `next` pointer that the source assigns. -/
structure LLvNode where
  key : String
  value : FASTArecord
  next : Option Nat
deriving DecidableEq, Repr

/-- Modelled from the spec: `llNewNode` of `LLvNode.h`, which is not under `src/`.  The
accumulator contract says the record's fields are copied into a new node; the new node is
allocated at the first unused heap index and has no successor. -/
def llNewNode (heap : List LLvNode) (key : String) (value : FASTArecord) :
    List LLvNode × Option Nat :=
  (heap ++ [{ key := key, value := value, next := none }], some heap.length)

/-- The assignment `p->next = q`.  Writing through `NULL` or through a pointer that is
not a node of the heap changes nothing in the model. -/
def setNext (heap : List LLvNode) (p q : Option Nat) : List LLvNode :=
  match p with
  | none => heap
  | some a => heap.modify (fun n => { n with next := q }) a

/-- The nodes met when following `next` from `p`, as heap indices: what `llFree` is handed.
The result is `none` when the walk meets an index that is not a node, or does not reach
`NULL` within `fuel` nodes. -/
def llWalk (heap : List LLvNode) : Nat → Option Nat → Option (List Nat)
  | _, none => some []
  | 0, some _ => none
  | fuel + 1, some a =>
    match heap.get? a with
    | none => none
    | some n => (llWalk heap fuel n.next).map (fun l => a :: l)

/-- What the program writes and the files it opens, in program order. -/
inductive Event where
  /-- The call `fopen(filename, "r")` of `processFasta`. -/
  | fopen (filename : String)
  /-- The line `Failure opening %s : %s`. -/
  | openFailure (filename : String)
  /-- The progress mark `.`. -/
  | progressDot
  /-- The line `status = %d`. -/
  | statusLine (status : Int)
  /-- The line `Error: failure at line %d of '%s'`. -/
  | failureAtLine (lineNumber : Int) (filename : String)
  /-- The line ` %d FASTA records`. -/
  | recordCount (recordNumber : Int)
  /-- The line `%lf seconds taken for processing total`. -/
  | totalTime
  /-- The line `On average: %d minutes, %lf second per run`. -/
  | averageTime
  /-- The line `Error: need argument for repeats requested`. -/
  | needRepeatsArgument
  /-- The line `Error: cannot parse repeats requested from '%s'`. -/
  | cannotParseRepeats (arg : String)
  /-- The line `Error: unknown option '%s'`. -/
  | unknownOption (arg : String)
  /-- The usage text, printed with `argv[0]` (`none` when `argv[0]` is `NULL`). -/
  | usageText (progname : Option String)
  /-- The line `Error: Processing '%s' failed -- exiting`. -/
  | processingFailed (filename : String)
  /-- The line `%d records processed from '%s'`. -/
  | recordsProcessed (count : Int) (filename : String)
  /-- The line `No data processed -- provide the name of a file on the command line`. -/
  | noDataProcessed
deriving DecidableEq, Repr

/-- The surroundings of a run.

* `fopen t name`: what the call of `fopen` number `t` of the run (counted from 0) finds
  under `name`: `none` when the file cannot be opened, otherwise the results that the
  successive calls of `fastaReadRecord` on the opened stream give.
* `sscanfLd s`: `some v` when `sscanf(s, "%ld", &x)` returns 1 and stores `v`, `none`
  when it returns anything else.
* `uninitStatus t`: the indeterminate value that the local `status` of
  `processFastaRepeatedly` holds when the function is entered after `t` calls of `fopen`;
  the source never initialises it. -/
structure World where
  fopen : Nat → String → Option (List ReadResult)
  sscanfLd : String → Option Int
  uninitStatus : Nat → Int

/-! ## processFasta -/

/-- The locals of `processFasta` that the read loop uses, the node heap, and the output
written so far. -/
structure LoopState where
  heap : List LLvNode
  CNode : Option Nat
  PNode : Option Nat
  LNode : Option Nat
  lineNumber : Int
  recordNumber : Int
  eofSeen : Bool
  out : List Event
deriving DecidableEq, Repr

/-- The locals as `processFasta` initialises them (lines 14 to 18), with the output
written before the loop. -/
def initialState (out : List Event) : LoopState :=
  { heap := [], CNode := none, PNode := none, LNode := none,
    lineNumber := 0, recordNumber := 0, eofSeen := false, out := out }

/-- One pass through the body of the `do ... while` loop (lines 32 to 81), given what the
call of `fastaReadRecord` of this pass returns.  The second component is `some v` when
the body executes `return v`.  The calls `fastaInitializeRecord` and `fastaClearRecord`
act on the buffer `fRecord` only and leave no trace in the state. -/
def loopBody (filename : String) (s : LoopState) (r : ReadResult) : LoopState × Option Int :=
  let s := if s.recordNumber % 10000 = 0 then { s with out := s.out ++ [Event.progressDot] } else s
  let status := r.status
  if status = 0 then
    ({ s with eofSeen := true }, none)
  else if status > 0 then
    let alloc := llNewNode s.heap r.record.description r.record
    let s := { s with heap := alloc.1, CNode := alloc.2 }
    let s :=
      if s.PNode = none then
        { s with LNode := s.CNode, PNode := s.CNode }
      else
        let heap1 := setNext s.heap s.LNode s.CNode
        { s with heap := setNext heap1 s.CNode none, LNode := s.CNode }
    ({ s with lineNumber := s.lineNumber + status, recordNumber := s.recordNumber + 1 }, none)
  else
    ({ s with out := s.out ++ [Event.statusLine status, Event.failureAtLine s.lineNumber filename] },
      some (-1))

/-- How the read loop ends. -/
inductive LoopEnd where
  /-- The loop condition `!eofSeen` became false. -/
  | endOfStream
  /-- The body executed `return v`. -/
  | returned (v : Int)
  /-- The loop asked for one more read than the modelled stream describes. -/
  | streamExhausted
deriving DecidableEq, Repr

/-- The `do ... while (!eofSeen)` loop.  Each pass takes the next result of the stream.
When the stream has no further result the state at the start of that pass is returned
unchanged. -/
def readLoop (filename : String) : List ReadResult → LoopState → LoopState × LoopEnd
  | [], s => (s, LoopEnd.streamExhausted)
  | r :: rest, s =>
    match loopBody filename s r with
    | (s1, some v) => (s1, LoopEnd.returned v)
    | (s1, none) => if s1.eofSeen then (s1, LoopEnd.endOfStream) else readLoop filename rest s1

/-- The result of one call of `processFasta`: the events of the call, the returned `int`
(`none` when the modelled stream was exhausted before the loop ended), and the locals
when the function is left; on the success path `locals.PNode` is what `llFree` receives. -/
structure FastaRun where
  out : List Event
  ret : Option Int
  locals : LoopState
deriving DecidableEq, Repr

/-- The function `processFasta`, called when `t` calls of `fopen` have been made. -/
def processFasta (w : World) (t : Nat) (filename : String) : FastaRun :=
  match w.fopen t filename with
  | none =>
    { out := [Event.fopen filename, Event.openFailure filename], ret := some (-1),
      locals := initialState [Event.fopen filename, Event.openFailure filename] }
  | some stream =>
    match readLoop filename stream (initialState [Event.fopen filename]) with
    | (s, LoopEnd.returned v) => { out := s.out, ret := some v, locals := s }
    | (s, LoopEnd.streamExhausted) => { out := s.out, ret := none, locals := s }
    | (s, LoopEnd.endOfStream) =>
      { out := s.out ++ [Event.recordCount s.recordNumber], ret := some s.recordNumber,
        locals := s }

/-! ## processFastaRepeatedly -/

/-- The result of `processFastaRepeatedly`: the events, the returned `int` (`none` when a
load did not end within its modelled stream) and the number of `fopen` calls of the run
after it. -/
structure RepeatRun where
  out : List Event
  ret : Option Int
  opens : Nat
deriving DecidableEq, Repr

/-- The `for` loop of `processFastaRepeatedly` and the code after it.  The first argument
is the number of passes left, `repeatsRequested - i`; `status` is the value of the local
`status`, `t` the number of `fopen` calls made so far. -/
def repeatLoop (w : World) (filename : String) : Nat → Nat → Int → List Event → RepeatRun
  | 0, t, status, out =>
    { out := out ++ [Event.totalTime, Event.averageTime], ret := some status, opens := t }
  | n + 1, t, _, out =>
    let run := processFasta w t filename
    match run.ret with
    | none => { out := out ++ run.out, ret := none, opens := t + 1 }
    | some status =>
      if status < 0 then
        { out := out ++ run.out, ret := some (-1), opens := t + 1 }
      else
        repeatLoop w filename n (t + 1) status (out ++ run.out)

/-- The function `processFastaRepeatedly`, entered when `t` calls of `fopen` have been made. -/
def processFastaRepeatedly (w : World) (t : Nat) (filename : String) (repeatsRequested : Int) :
    RepeatRun :=
  repeatLoop w filename repeatsRequested.toNat t (w.uninitStatus t) []

/-! ## main -/

/-- The function `usage`. -/
def usage (progname : Option String) : List Event :=
  [Event.usageText progname]

/-- How `main` ends. -/
inductive Outcome where
  /-- The statement `return code`. -/
  | exit (code : Int)
  /-- The pointer `argv[argc]`, which is `NULL`, was used as a string. -/
  | nullArgument
  /-- A load did not end within its modelled stream. -/
  | streamExhausted
  /-- The model's bound on the passes of the argument loop was reached. -/
  | outOfFuel
deriving DecidableEq, Repr

/-- How the argument loop of `main` ends: by leaving `main`, or by its condition
`i < argc` becoming false with the given value of `recordsProcessed`. -/
inductive ScanEnd where
  | left (o : Outcome)
  | completed (recordsProcessed : Int)
deriving DecidableEq, Repr

/-- The result of the argument loop. -/
structure ScanRun where
  out : List Event
  stop : ScanEnd
deriving DecidableEq, Repr

/-- The result of `main`. -/
structure MainRun where
  out : List Event
  outcome : Outcome
deriving DecidableEq, Repr

/-- The `for (i = 1; i < argc; i++)` loop of `main` (lines 148 to 171); `argc` is
`argv.length` and `argv[argc]` is `NULL`.  The first argument bounds the number of
passes; `t` is the number of `fopen` calls made so far. -/
def mainLoop (w : World) (argv : List String) :
    Nat → Nat → Nat → Int → Int → List Event → ScanRun
  | 0, _, _, _, _, out => { out := out, stop := ScanEnd.left Outcome.outOfFuel }
  | fuel + 1, i, t, recordsProcessed, repeatsRequested, out =>
    if i < argv.length then
      match argv.get? i with
      | none => { out := out, stop := ScanEnd.left Outcome.nullArgument }
      | some arg =>
        match arg.toList with
        | '-' :: cs =>
          if cs.head? = some 'R' then
            if i ≥ argv.length then
              { out := out ++ [Event.needRepeatsArgument], stop := ScanEnd.left (Outcome.exit 1) }
            else
              match argv.get? (i + 1) with
              | none => { out := out, stop := ScanEnd.left Outcome.nullArgument }
              | some count =>
                match w.sscanfLd count with
                | none =>
                  { out := out ++ [Event.cannotParseRepeats count],
                    stop := ScanEnd.left (Outcome.exit 1) }
                | some v => mainLoop w argv fuel (i + 2) t recordsProcessed v out
          else
            mainLoop w argv fuel (i + 1) t recordsProcessed repeatsRequested
              (out ++ [Event.unknownOption arg] ++ usage (argv.get? 0))
        | _ =>
          let run := processFastaRepeatedly w t arg repeatsRequested
          match run.ret with
          | none => { out := out ++ run.out, stop := ScanEnd.left Outcome.streamExhausted }
          | some records =>
            if records < 0 then
              { out := out ++ run.out ++ [Event.processingFailed arg],
                stop := ScanEnd.left (Outcome.exit 1) }
            else
              mainLoop w argv fuel (i + 1) run.opens records repeatsRequested
                (out ++ run.out ++ [Event.recordsProcessed records arg])
    else
      { out := out, stop := ScanEnd.completed recordsProcessed }

/-- The function `main`. -/
def main (w : World) (argv : List String) : MainRun :=
  let scan := mainLoop w argv (argv.length + 1) 1 0 0 1 []
  match scan.stop with
  | ScanEnd.left o => { out := scan.out, outcome := o }
  | ScanEnd.completed recordsProcessed =>
    if recordsProcessed = 0 then
      { out := scan.out ++ [Event.noDataProcessed] ++ usage (argv.get? 0),
        outcome := Outcome.exit 1 }
    else
      { out := scan.out, outcome := Outcome.exit 1 }

/-! ## Concrete surroundings used by the worked examples -/

/-- The white space of the C locale, what `isspace` accepts: space, horizontal tab, line
feed, vertical tab, form feed and carriage return. -/
def isspace (c : Char) : Bool :=
  c.toNat = 32 || (9 ≤ c.toNat && c.toNat ≤ 13)

/-- The largest value of a 64-bit `long`. -/
def LONG_MAX : Int := 9223372036854775807

/-- The smallest value of a 64-bit `long`. -/
def LONG_MIN : Int := -9223372036854775808

/-- A model of `sscanf(s, "%ld", &x)`: white space is skipped, an optional sign is read,
then the longest run of decimal digits; the conversion succeeds when there is at least
one digit, and a value outside the range of `long` is stored as `LONG_MAX` or `LONG_MIN`,
as `strtol` does. -/
def sscanfLd (s : String) : Option Int :=
  let cs := s.toList.dropWhile isspace
  let body := match cs with
    | '-' :: rest => (true, rest)
    | '+' :: rest => (false, rest)
    | _ => (false, cs)
  let digits := body.2.takeWhile Char.isDigit
  if digits = [] then none
  else
    let v : Nat := digits.foldl (fun acc c => 10 * acc + (c.toNat - 48)) 0
    let x : Int := if body.1 then -(v : Int) else (v : Int)
    some (if x > LONG_MAX then LONG_MAX else if x < LONG_MIN then LONG_MIN else x)

/-- The two records of the spec's example `>seq1 ACGT ACGT >seq2 TTTT`, followed by the
end of the stream: three lines for the first record, two for the second. -/
def exampleStream : List ReadResult :=
  [ { status := 3, record := { description := "seq1", sequence := "ACGTACGT" } },
    { status := 2, record := { description := "seq2", sequence := "TTTT" } },
    { status := 0, record := { description := "", sequence := "" } } ]

/-- A file whose first line is a sequence line with no header before it: the first read
reports a parse failure. -/
def headerlessStream : List ReadResult :=
  [ { status := -1, record := { description := "", sequence := "" } } ]

/-- An empty file: the first read reports the end of the stream. -/
def emptyStream : List ReadResult :=
  [ { status := 0, record := { description := "", sequence := "" } } ]

/-- A file system that does not change during the run: `two.fa` holds the two example
records, `bad.fa` starts with a sequence line, `empty.fa` is empty, and no other file
can be opened. -/
def exampleWorld : World :=
  { fopen := fun _ name =>
      if name = "two.fa" then some exampleStream
      else if name = "bad.fa" then some headerlessStream
      else if name = "empty.fa" then some emptyStream
      else none
    sscanfLd := sscanfLd
    uninitStatus := fun _ => 0 }

/-- A file system that changes during the run: `two.fa` holds the two example records at
the first call of `fopen` and cannot be opened afterwards. -/
def vanishingWorld : World :=
  { fopen := fun t name => if t = 0 ∧ name = "two.fa" then some exampleStream else none
    sscanfLd := sscanfLd
    uninitStatus := fun _ => 0 }

/-! ## Specification vocabulary -/

/-- The node that `llNewNode` makes of a record that was read, with the given successor. -/
def nodeOf (r : ReadResult) (next : Option Nat) : LLvNode :=
  { key := r.record.description, value := r.record, next := next }

/-- The heap of a list that holds the given records in order: the node of record `j` is
at index `j` and points to index `j + 1`, the last node points to `NULL`. -/
def linked (recs : List ReadResult) : List LLvNode :=
  recs.mapIdx (fun j r => nodeOf r (if j + 1 < recs.length then some (j + 1) else none))

/-- The state of the read loop at the start of a pass, when the records read so far are
`recs`. -/
def Chained (recs : List ReadResult) (s : LoopState) : Prop :=
  s.heap = linked recs ∧
  s.PNode = (if recs = [] then none else some 0) ∧
  s.LNode = (if recs = [] then none else some (recs.length - 1)) ∧
  s.recordNumber = (recs.length : Int) ∧
  s.lineNumber = (recs.map ReadResult.status).sum ∧
  s.eofSeen = false

/-- The reads with a positive status among the given ones. -/
def positiveReads (reads : List ReadResult) : List ReadResult :=
  reads.filter (fun r => decide (0 < r.status))

/-- The loop invariant of the read loop, for a state at the start of a pass and the
reads of the passes before it. -/
def LoopInvariant (reads : List ReadResult) (s : LoopState) : Prop :=
  (∃ addrs, llWalk s.heap s.heap.length s.PNode = some addrs ∧
      (addrs.length : Int) = s.recordNumber ∧ addrs.getLast? = s.LNode) ∧
  (s.PNode = none ↔ s.recordNumber = 0) ∧
  s.recordNumber = ((positiveReads reads).length : Int) ∧
  s.lineNumber = ((positiveReads reads).map ReadResult.status).sum

/-- The largest value of the source's 32-bit `int`. -/
def INT_MAX : Int := 2147483647

/-- The smallest value of the source's 32-bit `int`. -/
def INT_MIN : Int := -2147483648

/-- The integer is a value of the source's 32-bit `int`. -/
def fitsInt (x : Int) : Prop :=
  INT_MIN ≤ x ∧ x ≤ INT_MAX

/-- Whether an event is a call of `fopen`. -/
def isFopen : Event → Bool
  | Event.fopen _ => true
  | _ => false

/-- The number of loads in a run: every call of `processFasta` calls `fopen` once. -/
def loads (out : List Event) : Nat :=
  out.countP isFopen

theorem linked_getElem? (recs : List ReadResult) (j : Nat) :
    (linked recs)[j]? =
      recs[j]?.map (fun r => nodeOf r (if j + 1 < recs.length then some (j + 1) else none)) := by
  simp [linked]

theorem linked_length (recs : List ReadResult) : (linked recs).length = recs.length := by
  simp [linked]

theorem linked_snoc (recs : List ReadResult) (r : ReadResult) (h : recs ≠ []) :
    setNext (setNext (linked recs ++ [nodeOf r none]) (some (recs.length - 1))
      (some recs.length)) (some recs.length) none = linked (recs ++ [r]) := by
  have hpos : 0 < recs.length := List.length_pos.mpr h
  apply List.ext_getElem?
  intro j
  simp only [setNext, List.getElem?_modify, linked_getElem?, List.length_append,
    List.length_singleton]
  rcases Nat.lt_trichotomy j recs.length with hj | hj | hj
  · have h1 : (linked recs ++ [nodeOf r none])[j]? = (linked recs)[j]? :=
      List.getElem?_append_left (by rw [linked_length]; exact hj)
    have h2 : (recs ++ [r])[j]? = recs[j]? := List.getElem?_append_left hj
    rw [h1, h2, linked_getElem?]
    have h3 : recs.length ≠ j := by omega
    cases hget : recs[j]? with
    | none => simp
    | some x =>
      by_cases hl : j + 1 < recs.length
      · have h4 : recs.length - 1 ≠ j := by omega
        simp [h3, h4, hl, nodeOf]
        omega
      · have h4 : recs.length - 1 = j := by omega
        have h5 : j + 1 = recs.length := by omega
        simp [h3, h4, hl, nodeOf, h5]
  · subst hj
    have h1 : (linked recs ++ [nodeOf r none])[recs.length]? = some (nodeOf r none) := by
      rw [List.getElem?_append_right (by rw [linked_length])]
      simp [linked_length]
    have h2 : (recs ++ [r])[recs.length]? = some r := by
      rw [List.getElem?_append_right (le_refl _)]
      simp
    rw [h1, h2]
    have h4 : recs.length - 1 ≠ recs.length := by omega
    simp [h4, nodeOf]
  · have h1 : (linked recs ++ [nodeOf r none])[j]? = none := by
      apply List.getElem?_eq_none
      simp [linked_length]
      omega
    have h2 : (recs ++ [r])[j]? = none := by
      apply List.getElem?_eq_none
      simp
      omega
    rw [h1, h2]
    simp

theorem chained_initial (out : List Event) : Chained [] (initialState out) := by
  simp [Chained, initialState, linked]

theorem loopBody_positive_fields (filename : String) (s : LoopState) (r : ReadResult)
    (hr : 0 < r.status) :
    (loopBody filename s r).2 = none ∧
    (loopBody filename s r).1.heap =
      (if s.PNode = none then s.heap ++ [nodeOf r none]
       else setNext (setNext (s.heap ++ [nodeOf r none]) s.LNode (some s.heap.length))
         (some s.heap.length) none) ∧
    (loopBody filename s r).1.PNode = (if s.PNode = none then some s.heap.length else s.PNode) ∧
    (loopBody filename s r).1.LNode = some s.heap.length ∧
    (loopBody filename s r).1.recordNumber = s.recordNumber + 1 ∧
    (loopBody filename s r).1.lineNumber = s.lineNumber + r.status ∧
    (loopBody filename s r).1.eofSeen = s.eofSeen := by
  have hne : r.status ≠ 0 := by omega
  by_cases h1 : s.recordNumber % 10000 = 0 <;> by_cases h2 : s.PNode = none <;>
    simp [loopBody, h1, h2, hne, hr, llNewNode, nodeOf]

theorem loopBody_positive (filename : String) (recs : List ReadResult) (s : LoopState)
    (r : ReadResult) (hs : Chained recs s) (hr : 0 < r.status) :
    Chained (recs ++ [r]) (loopBody filename s r).1 ∧ (loopBody filename s r).2 = none := by
  obtain ⟨hheap, hP, hL, hrec, hline, heof⟩ := hs
  obtain ⟨f2, fheap, fP, fL, frec, fline, feof⟩ := loopBody_positive_fields filename s r hr
  refine ⟨⟨?_, ?_, ?_, ?_, ?_, ?_⟩, f2⟩
  · rw [fheap]
    by_cases hnil : recs = []
    · subst hnil
      simp [hP, hheap, linked]
    · simp only [hnil, if_false] at hP hL
      rw [hP, hL, hheap, linked_length]
      simpa using linked_snoc recs r hnil
  · rw [fP]
    by_cases hnil : recs = []
    · subst hnil
      simp [hP, hheap, linked]
    · simp [hnil] at hP
      simp [hP]
  · rw [fL, hheap, linked_length]
    simp
  · rw [frec, hrec]
    simp
  · rw [fline, hline]
    simp
  · rw [feof, heof]

theorem readLoop_positive (filename : String) (pos : List ReadResult)
    (hpos : ∀ r ∈ pos, 0 < r.status) :
    ∀ (done : List ReadResult) (s : LoopState), Chained done s →
      ∃ s1, Chained (done ++ pos) s1 ∧
        ∀ rest, readLoop filename (pos ++ rest) s = readLoop filename rest s1 := by
  induction pos with
  | nil =>
    intro done s hs
    exact ⟨s, by simpa using hs, fun rest => rfl⟩
  | cons r pos ih =>
    intro done s hs
    have hr : 0 < r.status := hpos r (List.mem_cons_self _ _)
    obtain ⟨hch, hret⟩ := loopBody_positive filename done s r hs hr
    obtain ⟨s1, hs1, hrun⟩ :=
      ih (fun x hx => hpos x (List.mem_cons_of_mem _ hx)) (done ++ [r]) _ hch
    refine ⟨s1, by simpa using hs1, fun rest => ?_⟩
    rw [← hrun rest]
    have heof : (loopBody filename s r).1.eofSeen = false := hch.2.2.2.2.2
    show readLoop filename (r :: (pos ++ rest)) s = _
    rw [readLoop]
    rcases hb : loopBody filename s r with ⟨s2, ret⟩
    rw [hb] at hret heof
    simp only at hret heof
    subst hret
    simp [heof]

theorem readLoop_positive_state (filename : String) (pos : List ReadResult)
    (hpos : ∀ r ∈ pos, 0 < r.status) (done : List ReadResult) (s : LoopState)
    (hs : Chained done s) :
    Chained (done ++ pos) (readLoop filename pos s).1 ∧
      ∀ rest, readLoop filename (pos ++ rest) s =
        readLoop filename rest (readLoop filename pos s).1 := by
  obtain ⟨s1, hs1, hrun⟩ := readLoop_positive filename pos hpos done s hs
  have h := hrun []
  simp only [List.append_nil, readLoop] at h
  rw [h]
  exact ⟨hs1, hrun⟩

theorem loopBody_nonpositive_fields (filename : String) (s : LoopState) (r : ReadResult)
    (hr : r.status ≤ 0) :
    (loopBody filename s r).1.heap = s.heap ∧
    (loopBody filename s r).1.PNode = s.PNode ∧
    (loopBody filename s r).1.LNode = s.LNode ∧
    (loopBody filename s r).1.recordNumber = s.recordNumber ∧
    (loopBody filename s r).1.lineNumber = s.lineNumber := by
  have hnp : ¬ r.status > 0 := by omega
  by_cases h1 : s.recordNumber % 10000 = 0 <;> by_cases h0 : r.status = 0 <;>
    simp [loopBody, h1, h0, hnp]

theorem loopBody_zero (filename : String) (s : LoopState) (r : ReadResult)
    (hr : r.status = 0) :
    (loopBody filename s r).2 = none ∧ (loopBody filename s r).1.eofSeen = true ∧
    ∃ k, (loopBody filename s r).1.out = s.out ++ List.replicate k Event.progressDot := by
  by_cases h1 : s.recordNumber % 10000 = 0
  · exact ⟨by simp [loopBody, h1, hr], by simp [loopBody, h1, hr], 1, by simp [loopBody, h1, hr]⟩
  · exact ⟨by simp [loopBody, h1, hr], by simp [loopBody, h1, hr], 0, by simp [loopBody, h1, hr]⟩

theorem loopBody_negative (filename : String) (s : LoopState) (r : ReadResult)
    (hr : r.status < 0) :
    (loopBody filename s r).2 = some (-1) ∧
    ∃ k, (loopBody filename s r).1.out = s.out ++ List.replicate k Event.progressDot ++
      [Event.statusLine r.status, Event.failureAtLine s.lineNumber filename] := by
  have hne : r.status ≠ 0 := by omega
  have hnp : ¬ r.status > 0 := by omega
  by_cases h1 : s.recordNumber % 10000 = 0
  · exact ⟨by simp [loopBody, h1, hne, hnp], 1, by simp [loopBody, h1, hne, hnp]⟩
  · exact ⟨by simp [loopBody, h1, hne, hnp], 0, by simp [loopBody, h1, hne, hnp]⟩

theorem loopBody_positive_out (filename : String) (s : LoopState) (r : ReadResult)
    (hr : 0 < r.status) :
    ∃ k, (loopBody filename s r).1.out = s.out ++ List.replicate k Event.progressDot := by
  have hne : r.status ≠ 0 := by omega
  by_cases h1 : s.recordNumber % 10000 = 0 <;> by_cases h2 : s.PNode = none
  · exact ⟨1, by simp [loopBody, h1, h2, hne, hr, llNewNode]⟩
  · exact ⟨1, by simp [loopBody, h1, h2, hne, hr, llNewNode]⟩
  · exact ⟨0, by simp [loopBody, h1, h2, hne, hr, llNewNode]⟩
  · exact ⟨0, by simp [loopBody, h1, h2, hne, hr, llNewNode]⟩

theorem llWalk_null (heap : List LLvNode) (fuel : Nat) : llWalk heap fuel none = some [] := by
  cases fuel <;> rfl

theorem llWalk_linked (recs : List ReadResult) :
    ∀ (fuel j : Nat), j < recs.length → recs.length - j ≤ fuel →
      llWalk (linked recs) fuel (some j) = some (List.range' j (recs.length - j)) := by
  intro fuel
  induction fuel with
  | zero =>
    intro j hj hf
    omega
  | succ fuel ih =>
    intro j hj hf
    have hget : (linked recs).get? j =
        some (nodeOf (recs.get ⟨j, hj⟩) (if j + 1 < recs.length then some (j + 1) else none)) := by
      rw [List.get?_eq_getElem?, linked_getElem?, List.getElem?_eq_getElem hj]
      rfl
    rw [llWalk, hget]
    by_cases hl : j + 1 < recs.length
    · simp only [nodeOf, hl, if_true]
      rw [ih (j + 1) hl (by omega)]
      have hlen : recs.length - j = (recs.length - (j + 1)) + 1 := by omega
      rw [hlen, List.range'_succ]
      rfl
    · simp only [nodeOf, hl, if_false]
      have hlen : recs.length - j = 1 := by omega
      rw [hlen, llWalk_null]
      rfl

theorem llWalk_linked_head (recs : List ReadResult) (fuel : Nat) (hfuel : recs.length ≤ fuel) :
    llWalk (linked recs) fuel (if recs = [] then none else some 0) =
      some (List.range recs.length) := by
  by_cases hnil : recs = []
  · subst hnil
    simp [llWalk_null]
  · have hpos : 0 < recs.length := List.length_pos.mpr hnil
    simp only [hnil, if_false]
    rw [llWalk_linked recs fuel 0 hpos (by omega), List.range_eq_range']
    rfl

theorem range_getLast? (recs : List ReadResult) :
    (List.range recs.length).getLast? = (if recs = [] then none else some (recs.length - 1)) := by
  rw [List.range_eq_range', List.getLast?_range']
  by_cases hnil : recs = []
  · simp [hnil]
  · have hpos : 0 < recs.length := List.length_pos.mpr hnil
    have hne : recs.length ≠ 0 := by omega
    simp [hnil, hne]

/-! ## processFasta -/

theorem processFasta_open_failure (w : World) (t : Nat) (filename : String)
    (hopen : w.fopen t filename = none) :
    processFasta w t filename =
      { out := [Event.fopen filename, Event.openFailure filename], ret := some (-1),
        locals := initialState [Event.fopen filename, Event.openFailure filename] } := by
  simp [processFasta, hopen]

theorem positiveReads_eq_self (recs : List ReadResult) (hpos : ∀ r ∈ recs, 0 < r.status) :
    positiveReads recs = recs := by
  apply List.filter_eq_self.mpr
  intro r hr
  simpa using hpos r hr

theorem loopInvariant_of_chained (recs : List ReadResult) (s : LoopState)
    (hs : Chained recs s) (hpos : ∀ r ∈ recs, 0 < r.status) : LoopInvariant recs s := by
  obtain ⟨hheap, hP, hL, hrec, hline, _⟩ := hs
  rw [LoopInvariant, positiveReads_eq_self recs hpos]
  refine ⟨⟨List.range recs.length, ?_, ?_, ?_⟩, ?_, hrec, hline⟩
  · rw [hheap, hP, linked_length]
    exact llWalk_linked_head recs recs.length (le_refl _)
  · simp [hrec]
  · rw [hL]
    exact range_getLast? recs
  · rw [hP, hrec]
    by_cases hnil : recs = []
    · simp [hnil]
    · have hlen : 0 < recs.length := List.length_pos.mpr hnil
      simp [hnil]

theorem length_le_status_sum (recs : List ReadResult) (hpos : ∀ r ∈ recs, 0 < r.status) :
    (recs.length : Int) ≤ (recs.map ReadResult.status).sum := by
  induction recs with
  | nil => simp
  | cons r recs ih =>
    have hr : 0 < r.status := hpos r (List.mem_cons_self _ _)
    have h := ih (fun x hx => hpos x (List.mem_cons_of_mem _ hx))
    simp only [List.length_cons, List.map_cons, List.sum_cons, Nat.cast_add, Nat.cast_one]
    omega

/-! ## Claims about processFasta -/

/-- C3: for a file whose first line is a sequence line with no header before it, the
reader fails on the first read and `processFasta` reports `failure at line 0`: the number
it prints is the count of lines of the records read before the failing one, which is one
less than the number of the first line of the failing record. -/
theorem processFasta_headerless_reports_line_zero :
    (processFasta exampleWorld 0 "bad.fa").out =
      [Event.fopen "bad.fa", Event.progressDot, Event.statusLine (-1),
       Event.failureAtLine 0 "bad.fa"] ∧
    (processFasta exampleWorld 0 "bad.fa").ret = some (-1) := by
  decide

/-- C10: the loop invariant of the read loop, for the runs whose line count fits in the
source's `int`.  Whenever the first `j` reads are positive and the sum of their statuses
is at most `INT_MAX`, the loop reaches the start of its next pass in the state that the
loop run on those reads leaves, and in that state the walk from `PNode` has `recordNumber`
nodes and ends at `LNode`, `PNode` is `NULL` exactly when `recordNumber` is 0,
`recordNumber` is the number of positive reads and `lineNumber` the sum of their
statuses.  Both counters are then values of an `int` (the record count is at most the
line count, every positive status being at least 1), so no addition of the passes made
has overflowed.  A pass whose read is zero or negative leaves the heap, `PNode`, `LNode`
and both counters as they were. -/
theorem readLoop_invariant (filename : String) (out : List Event) (reads : List ReadResult)
    (j : Nat) (hstart : ∀ r ∈ reads.take j, 0 < r.status)
    (hfit : ((reads.take j).map ReadResult.status).sum ≤ INT_MAX) :
    readLoop filename reads (initialState out) =
      readLoop filename (reads.drop j) (readLoop filename (reads.take j) (initialState out)).1 ∧
    LoopInvariant (reads.take j) (readLoop filename (reads.take j) (initialState out)).1 ∧
    fitsInt (readLoop filename (reads.take j) (initialState out)).1.lineNumber ∧
    fitsInt (readLoop filename (reads.take j) (initialState out)).1.recordNumber ∧
    (∀ (s : LoopState) (r : ReadResult), r.status ≤ 0 →
      (loopBody filename s r).1.heap = s.heap ∧
      (loopBody filename s r).1.PNode = s.PNode ∧
      (loopBody filename s r).1.LNode = s.LNode ∧
      (loopBody filename s r).1.recordNumber = s.recordNumber ∧
      (loopBody filename s r).1.lineNumber = s.lineNumber) := by
  obtain ⟨hch, hrun⟩ :=
    readLoop_positive_state filename (reads.take j) hstart [] _ (chained_initial out)
  rw [List.nil_append] at hch
  have hlen := length_le_status_sum (reads.take j) hstart
  have hinv := loopInvariant_of_chained _ _ hch hstart
  obtain ⟨_, _, _, hrec, hline, _⟩ := hch
  have h0 : (0 : Int) ≤ ((reads.take j).length : Int) := Int.natCast_nonneg _
  have hmin : INT_MIN ≤ 0 := by decide
  refine ⟨?_, hinv, ?_, ?_, ?_⟩
  · have h := hrun (reads.drop j)
    rw [List.take_append_drop] at h
    exact h
  · rw [hline]
    exact ⟨le_trans hmin (le_trans h0 hlen), hfit⟩
  · rw [hrec]
    exact ⟨le_trans hmin h0, le_trans hlen hfit⟩
  · intro s r hr
    exact loopBody_nonpositive_fields filename s r hr

/-- Witness for C10: the state after the two records of the example stream, five lines
in all. -/
theorem readLoop_invariant_witness :
    (∀ r ∈ exampleStream.take 2, 0 < r.status) ∧
    ((exampleStream.take 2).map ReadResult.status).sum ≤ INT_MAX ∧
    LoopInvariant (exampleStream.take 2)
      (readLoop "two.fa" (exampleStream.take 2) (initialState [])).1 ∧
    fitsInt (readLoop "two.fa" (exampleStream.take 2) (initialState [])).1.lineNumber ∧
    fitsInt (readLoop "two.fa" (exampleStream.take 2) (initialState [])).1.recordNumber :=
  have h := readLoop_invariant "two.fa" [] exampleStream 2 (by decide) (by decide)
  ⟨by decide, by decide, h.2.1, h.2.2.1, h.2.2.2.1⟩

/-! ## processFastaRepeatedly -/

theorem loads_append (a b : List Event) : loads (a ++ b) = loads a + loads b := by
  simp [loads, List.countP_append]

theorem loads_dots (k : Nat) : loads (List.replicate k Event.progressDot) = 0 := by
  induction k with
  | zero => rfl
  | succ k ih =>
    rw [List.replicate_succ, loads, List.countP_cons]
    rw [loads] at ih
    rw [ih]
    rfl

theorem loopBody_loads (filename : String) (s : LoopState) (r : ReadResult) :
    loads (loopBody filename s r).1.out = loads s.out := by
  rcases lt_trichotomy r.status 0 with h | h | h
  · obtain ⟨_, k, hk⟩ := loopBody_negative filename s r h
    rw [hk, loads_append, loads_append, loads_dots]
    rfl
  · obtain ⟨_, _, k, hk⟩ := loopBody_zero filename s r h
    rw [hk, loads_append, loads_dots]
    rfl
  · obtain ⟨k, hk⟩ := loopBody_positive_out filename s r h
    rw [hk, loads_append, loads_dots]
    rfl

theorem readLoop_loads (filename : String) (stream : List ReadResult) :
    ∀ s : LoopState, loads (readLoop filename stream s).1.out = loads s.out := by
  induction stream with
  | nil =>
    intro s
    rfl
  | cons r stream ih =>
    intro s
    have hb := loopBody_loads filename s r
    rw [readLoop]
    rcases hl : loopBody filename s r with ⟨s1, ret⟩
    rw [hl] at hb
    simp only at hb
    cases ret with
    | some v => exact hb
    | none =>
      by_cases he : s1.eofSeen = true
      · simp only [he, if_true]
        exact hb
      · simp only [he]
        rw [← hb]
        exact ih s1

theorem processFasta_loads (w : World) (t : Nat) (filename : String) :
    loads (processFasta w t filename).out = 1 := by
  cases hopen : w.fopen t filename with
  | none =>
    rw [processFasta_open_failure w t filename hopen]
    rfl
  | some stream =>
    have h := readLoop_loads filename stream (initialState [Event.fopen filename])
    simp only [processFasta, hopen]
    rcases hb : readLoop filename stream (initialState [Event.fopen filename]) with ⟨s1, e⟩
    rw [hb] at h
    simp only at h
    cases e with
    | endOfStream =>
      show loads (s1.out ++ [Event.recordCount s1.recordNumber]) = 1
      rw [loads_append, h]
      rfl
    | returned v => exact h
    | streamExhausted => exact h

theorem repeatLoop_step (w : World) (filename : String) (n t : Nat) (status : Int)
    (out : List Event) (v : Int) (hv : (processFasta w t filename).ret = some v) (h0 : 0 ≤ v) :
    repeatLoop w filename (n + 1) t status out =
      repeatLoop w filename n (t + 1) v (out ++ (processFasta w t filename).out) := by
  rw [repeatLoop]
  simp only [hv]
  have hnn : ¬ v < 0 := by omega
  simp [hnn]

theorem repeatLoop_fail (w : World) (filename : String) (n t : Nat) (status : Int)
    (out : List Event) (v : Int) (hv : (processFasta w t filename).ret = some v) (h0 : v < 0) :
    repeatLoop w filename (n + 1) t status out =
      { out := out ++ (processFasta w t filename).out, ret := some (-1), opens := t + 1 } := by
  rw [repeatLoop]
  simp only [hv]
  simp [h0]

theorem repeatLoop_first_failure (w : World) (filename : String) (i : Nat) :
    ∀ (n t : Nat) (status : Int) (out : List Event), i + 1 ≤ n →
      (∀ j, j < i → ∃ v, (processFasta w (t + j) filename).ret = some v ∧ 0 ≤ v) →
      (∃ v, (processFasta w (t + i) filename).ret = some v ∧ v < 0) →
      (repeatLoop w filename n t status out).ret = some (-1) ∧
      (repeatLoop w filename n t status out).opens = t + (i + 1) ∧
      loads (repeatLoop w filename n t status out).out = loads out + (i + 1) := by
  induction i with
  | zero =>
    intro n t status out hn _ hfail
    obtain ⟨v, hv, hneg⟩ := hfail
    rw [Nat.add_zero] at hv
    obtain ⟨m, rfl⟩ : ∃ m, n = m + 1 := ⟨n - 1, by omega⟩
    rw [repeatLoop_fail w filename m t status out v hv hneg]
    refine ⟨rfl, rfl, ?_⟩
    rw [loads_append, processFasta_loads]
  | succ i ih =>
    intro n t status out hn hok hfail
    obtain ⟨v, hv, hv0⟩ := hok 0 (Nat.succ_pos i)
    rw [Nat.add_zero] at hv
    obtain ⟨m, rfl⟩ : ∃ m, n = m + 1 := ⟨n - 1, by omega⟩
    have hok2 : ∀ j, j < i → ∃ v, (processFasta w (t + 1 + j) filename).ret = some v ∧ 0 ≤ v := by
      intro j hj
      have h := hok (j + 1) (by omega)
      have he : t + (j + 1) = t + 1 + j := by omega
      rw [he] at h
      exact h
    have hfail2 : ∃ v, (processFasta w (t + 1 + i) filename).ret = some v ∧ v < 0 := by
      have he : t + (i + 1) = t + 1 + i := by omega
      rw [he] at hfail
      exact hfail
    obtain ⟨h1, h2, h3⟩ :=
      ih m (t + 1) v (out ++ (processFasta w t filename).out) (by omega) hok2 hfail2
    rw [repeatLoop_step w filename m t status out v hv hv0]
    refine ⟨h1, by rw [h2]; omega, ?_⟩
    rw [h3, loads_append, processFasta_loads]
    omega

/-! ## main -/

theorem mainLoop_done (w : World) (argv : List String) (fuel i t : Nat) (rp reps : Int)
    (out : List Event) (hi : ¬ i < argv.length) :
    mainLoop w argv (fuel + 1) i t rp reps out = { out := out, stop := ScanEnd.completed rp } := by
  rw [mainLoop]
  simp [hi]

theorem mainLoop_file (w : World) (argv : List String) (fuel i t : Nat) (rp reps : Int)
    (out : List Event) (arg : String) (hget : argv.get? i = some arg)
    (hfile : ∀ cs, arg.toList ≠ '-' :: cs) :
    mainLoop w argv (fuel + 1) i t rp reps out =
      match (processFastaRepeatedly w t arg reps).ret with
      | none =>
        { out := out ++ (processFastaRepeatedly w t arg reps).out,
          stop := ScanEnd.left Outcome.streamExhausted }
      | some records =>
        if records < 0 then
          { out := out ++ (processFastaRepeatedly w t arg reps).out ++ [Event.processingFailed arg],
            stop := ScanEnd.left (Outcome.exit 1) }
        else
          mainLoop w argv fuel (i + 1) (processFastaRepeatedly w t arg reps).opens records reps
            (out ++ (processFastaRepeatedly w t arg reps).out ++
              [Event.recordsProcessed records arg]) := by
  have hi : i < argv.length := by
    rcases Nat.lt_or_ge i argv.length with h | h
    · exact h
    · rw [List.get?_eq_none.mpr h] at hget
      exact absurd hget (by simp)
  rw [mainLoop]
  simp only [hi, if_true, hget]

theorem mainLoop_unknown (w : World) (argv : List String) (fuel i t : Nat) (rp reps : Int)
    (out : List Event) (arg : String) (cs : List Char) (hget : argv.get? i = some arg)
    (hdash : arg.toList = '-' :: cs) (hR : cs.head? ≠ some 'R') :
    mainLoop w argv (fuel + 1) i t rp reps out =
      mainLoop w argv fuel (i + 1) t rp reps
        (out ++ [Event.unknownOption arg] ++ usage (argv.get? 0)) := by
  have hi : i < argv.length := by
    rcases Nat.lt_or_ge i argv.length with h | h
    · exact h
    · rw [List.get?_eq_none.mpr h] at hget
      exact absurd hget (by simp)
  rw [mainLoop]
  simp only [hi, if_true, hget]
  split
  · rename_i cs2 hcs
    rw [hdash] at hcs
    have hcs2 : cs = cs2 := (List.cons.inj hcs).2
    subst hcs2
    simp only [hR, if_false]
  · rename_i hno
    exact absurd hdash (hno cs)

theorem mainLoop_repeats (w : World) (argv : List String) (fuel i t : Nat) (rp reps : Int)
    (out : List Event) (arg : String) (cs : List Char) (hget : argv.get? i = some arg)
    (hdash : arg.toList = '-' :: cs) (hR : cs.head? = some 'R') :
    mainLoop w argv (fuel + 1) i t rp reps out =
      match argv.get? (i + 1) with
      | none => { out := out, stop := ScanEnd.left Outcome.nullArgument }
      | some count =>
        match w.sscanfLd count with
        | none =>
          { out := out ++ [Event.cannotParseRepeats count],
            stop := ScanEnd.left (Outcome.exit 1) }
        | some v => mainLoop w argv fuel (i + 2) t rp v out := by
  have hi : i < argv.length := by
    rcases Nat.lt_or_ge i argv.length with h | h
    · exact h
    · rw [List.get?_eq_none.mpr h] at hget
      exact absurd hget (by simp)
  have hge : ¬ i ≥ argv.length := by omega
  rw [mainLoop]
  simp only [hi, if_true, hget]
  split
  · rename_i cs2 hcs
    rw [hdash] at hcs
    have hcs2 : cs = cs2 := (List.cons.inj hcs).2
    subst hcs2
    simp only [hR, if_true, hge, if_false]
  · rename_i hno
    exact absurd hdash (hno cs)

theorem arg_cases (arg : String) :
    (∀ cs, arg.toList ≠ '-' :: cs) ∨
      ∃ cs, arg.toList = '-' :: cs ∧ (cs.head? = some 'R' ∨ cs.head? ≠ some 'R') := by
  cases h : arg.toList with
  | nil => exact Or.inl (by simp)
  | cons c cs =>
    by_cases hc : c = '-'
    · subst hc
      exact Or.inr ⟨cs, rfl, em _⟩
    · left
      intro cs2 h2
      exact hc (List.cons.inj h2).1

theorem get?_of_lt (argv : List String) (i : Nat) (hi : i < argv.length) :
    ∃ arg, argv.get? i = some arg :=
  ⟨argv.get ⟨i, hi⟩, List.get?_eq_get hi⟩

theorem mainLoop_stop (w : World) (argv : List String) (fuel : Nat) :
    ∀ (i t : Nat) (rp reps : Int) (out : List Event),
      i ≤ argv.length + 1 → argv.length + 1 < fuel + i →
      (mainLoop w argv fuel i t rp reps out).stop ≠ ScanEnd.left Outcome.outOfFuel ∧
      ∀ c, (mainLoop w argv fuel i t rp reps out).stop = ScanEnd.left (Outcome.exit c) → c = 1 := by
  induction fuel with
  | zero =>
    intro i t rp reps out h1 h2
    omega
  | succ fuel ih =>
    intro i t rp reps out h1 h2
    by_cases hi : i < argv.length
    · obtain ⟨arg, hget⟩ := get?_of_lt argv i hi
      rcases arg_cases arg with hfile | ⟨cs, hdash, hR | hR⟩
      · rw [mainLoop_file w argv fuel i t rp reps out arg hget hfile]
        cases hret : (processFastaRepeatedly w t arg reps).ret with
        | none => simp
        | some records =>
          by_cases hneg : records < 0
          · simp [hneg]
          · simp only [hneg, if_false]
            exact ih (i + 1) _ _ _ _ (by omega) (by omega)
      · rw [mainLoop_repeats w argv fuel i t rp reps out arg cs hget hdash hR]
        cases hnext : argv.get? (i + 1) with
        | none => simp
        | some count =>
          cases hscan : w.sscanfLd count with
          | none => simp [hscan]
          | some v =>
            simp only [hscan]
            exact ih (i + 2) _ _ _ _ (by omega) (by omega)
      · rw [mainLoop_unknown w argv fuel i t rp reps out arg cs hget hdash hR]
        exact ih (i + 1) _ _ _ _ (by omega) (by omega)
    · rw [mainLoop_done w argv fuel i t rp reps out hi]
      simp

theorem mainLoop_out (w : World) (argv : List String) (fuel : Nat) :
    ∀ (i t : Nat) (rp reps : Int) (out : List Event),
      mainLoop w argv fuel i t rp reps out =
        { out := out ++ (mainLoop w argv fuel i t rp reps []).out,
          stop := (mainLoop w argv fuel i t rp reps []).stop } := by
  induction fuel with
  | zero =>
    intro i t rp reps out
    simp [mainLoop]
  | succ fuel ih =>
    intro i t rp reps out
    by_cases hi : i < argv.length
    · obtain ⟨arg, hget⟩ := get?_of_lt argv i hi
      rcases arg_cases arg with hfile | ⟨cs, hdash, hR | hR⟩
      · rw [mainLoop_file w argv fuel i t rp reps out arg hget hfile,
          mainLoop_file w argv fuel i t rp reps [] arg hget hfile]
        cases hret : (processFastaRepeatedly w t arg reps).ret with
        | none => simp
        | some records =>
          by_cases hneg : records < 0
          · simp [hneg]
          · simp only [hneg, if_false]
            rw [ih (i + 1) _ records reps (out ++ _ ++ _), ih (i + 1) _ records reps ([] ++ _ ++ _)]
            simp
      · rw [mainLoop_repeats w argv fuel i t rp reps out arg cs hget hdash hR,
          mainLoop_repeats w argv fuel i t rp reps [] arg cs hget hdash hR]
        cases hnext : argv.get? (i + 1) with
        | none => simp
        | some count =>
          cases hscan : w.sscanfLd count with
          | none => simp [hscan]
          | some v =>
            simp only [hscan]
            exact ih (i + 2) t rp v out
      · rw [mainLoop_unknown w argv fuel i t rp reps out arg cs hget hdash hR,
          mainLoop_unknown w argv fuel i t rp reps [] arg cs hget hdash hR]
        rw [ih (i + 1) t rp reps (out ++ _ ++ _), ih (i + 1) t rp reps ([] ++ _ ++ _)]
        simp
    · rw [mainLoop_done w argv fuel i t rp reps out hi, mainLoop_done w argv fuel i t rp reps [] hi]
      simp

theorem get?_skip (before later : List String) (x : String) (i : Nat)
    (hi : before.length ≤ i) :
    (before ++ x :: later).get? (i + 1) = (before ++ later).get? i := by
  rw [List.get?_eq_getElem?, List.get?_eq_getElem?,
    List.getElem?_append_right (by omega), List.getElem?_append_right hi]
  have he : i + 1 - before.length = (i - before.length) + 1 := by omega
  rw [he, List.getElem?_cons_succ]

theorem get?_zero_skip (before later : List String) (x : String) (hb : before ≠ []) :
    (before ++ x :: later).get? 0 = (before ++ later).get? 0 := by
  cases before with
  | nil => exact absurd rfl hb
  | cons b before => rfl

theorem mainLoop_skip (w : World) (before later : List String) (x : String)
    (hb : before ≠ []) (fuel : Nat) :
    ∀ (i t : Nat) (rp reps : Int) (out : List Event), before.length ≤ i →
      mainLoop w (before ++ x :: later) fuel (i + 1) t rp reps out =
        mainLoop w (before ++ later) fuel i t rp reps out := by
  induction fuel with
  | zero =>
    intro i t rp reps out _
    simp [mainLoop]
  | succ fuel ih =>
    intro i t rp reps out hle
    have hzero := get?_zero_skip before later x hb
    by_cases hi : i < (before ++ later).length
    · obtain ⟨arg, hget⟩ := get?_of_lt (before ++ later) i hi
      have hget2 : (before ++ x :: later).get? (i + 1) = some arg := by
        rw [get?_skip before later x i hle]
        exact hget
      rcases arg_cases arg with hfile | ⟨cs, hdash, hR | hR⟩
      · rw [mainLoop_file w _ fuel (i + 1) t rp reps out arg hget2 hfile,
          mainLoop_file w _ fuel i t rp reps out arg hget hfile]
        cases hret : (processFastaRepeatedly w t arg reps).ret with
        | none => simp
        | some records =>
          by_cases hneg : records < 0
          · simp [hneg]
          · simp only [hneg, if_false]
            exact ih (i + 1) _ _ _ _ (by omega)
      · rw [mainLoop_repeats w _ fuel (i + 1) t rp reps out arg cs hget2 hdash hR,
          mainLoop_repeats w _ fuel i t rp reps out arg cs hget hdash hR,
          get?_skip before later x (i + 1) (by omega)]
        cases hnext : (before ++ later).get? (i + 1) with
        | none => simp
        | some count =>
          cases hscan : w.sscanfLd count with
          | none => simp [hscan]
          | some v =>
            simp only [hscan]
            exact ih (i + 2) _ _ _ _ (by omega)
      · rw [mainLoop_unknown w _ fuel (i + 1) t rp reps out arg cs hget2 hdash hR,
          mainLoop_unknown w _ fuel i t rp reps out arg cs hget hdash hR, hzero]
        exact ih (i + 1) _ _ _ _ (by omega)
    · have hi2 : ¬ i + 1 < (before ++ x :: later).length := by
        simp only [List.length_append, List.length_cons] at hi ⊢
        omega
      rw [mainLoop_done w _ fuel (i + 1) t rp reps out hi2, mainLoop_done w _ fuel i t rp reps out hi]

/-! ## Claims about processFastaRepeatedly and main -/

/-- C5: when load number `i` of a file (`1 ≤ i ≤ k`) is the first that fails, that is
returns a negative value, `processFastaRepeatedly` returns -1 after exactly `i` loads.
`main`, whenever its loop reaches the file argument with that repeat count, then leaves
with `return 1` right after the `Processing failed` line, whatever arguments follow. -/
theorem abort_on_first_failing_load (w : World) (t : Nat) (filename : String) (k : Int)
    (i : Nat) (hi : 1 ≤ i) (hik : (i : Int) ≤ k)
    (hok : ∀ j, j + 1 < i → ∃ v, (processFasta w (t + j) filename).ret = some v ∧ 0 ≤ v)
    (hfail : ∃ v, (processFasta w (t + (i - 1)) filename).ret = some v ∧ v < 0) :
    (processFastaRepeatedly w t filename k).ret = some (-1) ∧
    loads (processFastaRepeatedly w t filename k).out = i ∧
    (processFastaRepeatedly w t filename k).opens = t + i ∧
    (∀ (argv : List String) (fuel idx : Nat) (rp : Int) (out : List Event),
      argv.get? idx = some filename → (∀ cs, filename.toList ≠ '-' :: cs) →
      mainLoop w argv (fuel + 1) idx t rp k out =
        { out := out ++ (processFastaRepeatedly w t filename k).out ++
            [Event.processingFailed filename],
          stop := ScanEnd.left (Outcome.exit 1) }) ∧
    (∀ (prog : String) (later : List String), t = 0 → k = 1 →
      (∀ cs, filename.toList ≠ '-' :: cs) →
      main w (prog :: filename :: later) =
        { out := (processFastaRepeatedly w t filename k).out ++ [Event.processingFailed filename],
          outcome := Outcome.exit 1 }) := by
  obtain ⟨m, rfl⟩ : ∃ m, i = m + 1 := ⟨i - 1, by omega⟩
  have hok2 : ∀ j, j < m → ∃ v, (processFasta w (t + j) filename).ret = some v ∧ 0 ≤ v :=
    fun j hj => hok j (by omega)
  obtain ⟨h1, h2, h3⟩ := repeatLoop_first_failure w filename m k.toNat t (w.uninitStatus t) []
    (by omega) hok2 hfail
  have hret : (processFastaRepeatedly w t filename k).ret = some (-1) := h1
  have hloop : ∀ (argv : List String) (fuel idx : Nat) (rp : Int) (out : List Event),
      argv.get? idx = some filename → (∀ cs, filename.toList ≠ '-' :: cs) →
      mainLoop w argv (fuel + 1) idx t rp k out =
        { out := out ++ (processFastaRepeatedly w t filename k).out ++
            [Event.processingFailed filename],
          stop := ScanEnd.left (Outcome.exit 1) } := by
    intro argv fuel idx rp out hget hfile
    rw [mainLoop_file w argv fuel idx t rp k out filename hget hfile, hret]
    simp
  refine ⟨hret, ?_, h2, hloop, ?_⟩
  · rw [processFastaRepeatedly, h3]
    simp [loads]
  · intro prog later ht hk1 hfile
    subst ht
    subst hk1
    have h := hloop (prog :: filename :: later) (later.length + 2) 1 0 [] rfl hfile
    simp only [main, List.length_cons]
    rw [h]
    simp

/-- Witness for C5: with three loads asked for, the file opens for the first load and has
vanished at the second; the run stops after two loads. -/
theorem abort_on_first_failing_load_witness :
    (processFastaRepeatedly vanishingWorld 0 "two.fa" 3).ret = some (-1) ∧
    loads (processFastaRepeatedly vanishingWorld 0 "two.fa" 3).out = 2 ∧
    (processFastaRepeatedly vanishingWorld 0 "two.fa" 3).opens = 2 ∧
    main vanishingWorld ["prog", "-R", "3", "two.fa", "empty.fa"] =
      { out := [Event.fopen "two.fa", Event.progressDot, Event.recordCount 2,
          Event.fopen "two.fa", Event.openFailure "two.fa",
          Event.processingFailed "two.fa"],
        outcome := Outcome.exit 1 } :=
  have h := abort_on_first_failing_load vanishingWorld 0 "two.fa" 3 2 (by decide) (by decide)
    (fun j hj => by
      have hj0 : j = 0 := by omega
      subst hj0
      exact ⟨2, by decide⟩)
    ⟨-1, by decide⟩
  ⟨h.1, h.2.1, h.2.2.1, by decide⟩

/-- C6: `main` never returns 0.  A run of `main` ends with `return 1`, or does not return
because `argv[argc]` is handed to `sscanf` or because a load does not end within its
modelled stream. -/
theorem main_returns_one (w : World) (argv : List String) :
    (main w argv).outcome ≠ Outcome.exit 0 ∧
    ((main w argv).outcome = Outcome.exit 1 ∨
      (main w argv).outcome = Outcome.nullArgument ∨
      (main w argv).outcome = Outcome.streamExhausted) := by
  have h := mainLoop_stop w argv (argv.length + 1) 1 0 0 1 [] (by omega) (by omega)
  have key : (main w argv).outcome = Outcome.exit 1 ∨
      (main w argv).outcome = Outcome.nullArgument ∨
      (main w argv).outcome = Outcome.streamExhausted := by
    simp only [main]
    cases hstop : (mainLoop w argv (argv.length + 1) 1 0 0 1 []).stop with
    | left o =>
      rw [hstop] at h
      cases o with
      | exit c =>
        have hc := h.2 c rfl
        subst hc
        exact Or.inl rfl
      | nullArgument => exact Or.inr (Or.inl rfl)
      | streamExhausted => exact Or.inr (Or.inr rfl)
      | outOfFuel => exact absurd rfl h.1
    | completed rp =>
      by_cases hrp : rp = 0
      · simp [hrp]
      · simp [hrp]
  refine ⟨?_, key⟩
  rcases key with h1 | h1 | h1 <;> rw [h1] <;> simp

/-- C7: when `-R` is the last argument, `main` does not print that an argument for the
repeats is needed: the test `i >= argc` is made before `i` is advanced and is false, so
`argv[argc]`, which is `NULL`, is handed to `sscanf`. -/
theorem main_trailing_R_uses_argv_argc (w : World) :
    main w ["prog", "-R"] = { out := [], outcome := Outcome.nullArgument } ∧
    Event.needRepeatsArgument ∉ (main w ["prog", "-R"]).out := by
  have h : main w ["prog", "-R"] = { out := [], outcome := Outcome.nullArgument } := rfl
  rw [h]
  simp

/-- C8: an unknown flag is skipped.  Whenever the loop of `main` reaches, in any state,
an argument that starts with `-` and whose second character is not `R`, the rest of the
run is the run on the argument vector without that argument from the same index and the
same state (so with the same repeat count), with the error line and the usage text added
to the output.  In particular, with the flag as first argument, `main` writes those two
and then does what it does without the flag. -/
theorem unknown_flag_is_skipped (w : World) (prog : String) (before later : List String)
    (flag : String) (cs : List Char) (hdash : flag.toList = '-' :: cs)
    (hR : cs.head? ≠ some 'R') :
    (∀ (fuel t : Nat) (rp reps : Int) (out : List Event),
      mainLoop w (prog :: before ++ flag :: later) (fuel + 1) (before.length + 1) t rp reps out =
        mainLoop w (prog :: before ++ later) fuel (before.length + 1) t rp reps
          (out ++ [Event.unknownOption flag, Event.usageText (some prog)])) ∧
    main w (prog :: flag :: later) =
      { out := [Event.unknownOption flag, Event.usageText (some prog)] ++
          (main w (prog :: later)).out,
        outcome := (main w (prog :: later)).outcome } := by
  have hloop : ∀ (before : List String) (fuel t : Nat) (rp reps : Int) (out : List Event),
      mainLoop w (prog :: before ++ flag :: later) (fuel + 1) (before.length + 1) t rp reps out =
        mainLoop w (prog :: before ++ later) fuel (before.length + 1) t rp reps
          (out ++ [Event.unknownOption flag, Event.usageText (some prog)]) := by
    intro before fuel t rp reps out
    have hget : (prog :: before ++ flag :: later).get? (before.length + 1) = some flag := by
      rw [List.cons_append, List.get?_cons_succ, List.get?_eq_getElem?,
        List.getElem?_append_right (le_refl _), Nat.sub_self, List.getElem?_cons_zero]
    rw [mainLoop_unknown w _ fuel (before.length + 1) t rp reps out flag cs hget hdash hR]
    have hskip := mainLoop_skip w (prog :: before) later flag (by simp) fuel
      (before.length + 1) t rp reps
      (out ++ [Event.unknownOption flag] ++ usage ((prog :: before ++ flag :: later).get? 0))
      (by simp)
    simp only [List.cons_append] at hskip ⊢
    rw [hskip]
    simp [usage]
  refine ⟨hloop before, ?_⟩
  have h := hloop [] (later.length + 2) 0 0 1 []
  simp only [List.nil_append, List.length_nil, Nat.zero_add, List.cons_append] at h
  have hmain : (mainLoop w (prog :: flag :: later) ((prog :: flag :: later).length + 1) 1 0 0 1 []) =
      mainLoop w (prog :: later) ((prog :: later).length + 1) 1 0 0 1
        [Event.unknownOption flag, Event.usageText (some prog)] := h
  simp only [main]
  rw [hmain, mainLoop_out w (prog :: later) ((prog :: later).length + 1) 1 0 0 1
    [Event.unknownOption flag, Event.usageText (some prog)]]
  cases (mainLoop w (prog :: later) ((prog :: later).length + 1) 1 0 0 1 []).stop with
  | left o => simp
  | completed rp =>
    by_cases hrp : rp = 0
    · simp [hrp, usage]
    · simp [hrp]

/-- Witness for C8: the flag `-x` before the two-record file. -/
theorem unknown_flag_is_skipped_witness :
    main exampleWorld ["prog", "-x", "two.fa"] =
      { out := [Event.unknownOption "-x", Event.usageText (some "prog")] ++
          (main exampleWorld ["prog", "two.fa"]).out,
        outcome := (main exampleWorld ["prog", "two.fa"]).outcome } :=
  (unknown_flag_is_skipped exampleWorld "prog" [] ["two.fa"] "-x" ['x'] rfl (by decide)).2

/-- C9: `main` tests the record count of the last file it loaded.  An empty file that is
opened and read to a clean end of stream gives the count 0, so `No data processed` and
the usage text are written although a file was processed; after a two-record file the
empty file still triggers them, and in the opposite order of the two files it does not. -/
theorem main_empty_file_reports_no_data :
    (processFasta exampleWorld 0 "empty.fa").ret = some 0 ∧
    main exampleWorld ["prog", "empty.fa"] =
      { out := [Event.fopen "empty.fa", Event.progressDot, Event.recordCount 0,
          Event.totalTime, Event.averageTime, Event.recordsProcessed 0 "empty.fa",
          Event.noDataProcessed, Event.usageText (some "prog")],
        outcome := Outcome.exit 1 } ∧
    Event.noDataProcessed ∈ (main exampleWorld ["prog", "two.fa", "empty.fa"]).out ∧
    Event.noDataProcessed ∉ (main exampleWorld ["prog", "empty.fa", "two.fa"]).out := by
  decide

/-- Worked runs of `main` for the paths named in C6: a repeat count that cannot be parsed,
a file that cannot be opened, a parse failure, no file named, and a successful load. -/
theorem main_paths_examples :
    (main exampleWorld ["prog", "-R", "many", "two.fa"]).outcome = Outcome.exit 1 ∧
    (main exampleWorld ["prog", "missing.fa"]).outcome = Outcome.exit 1 ∧
    (main exampleWorld ["prog", "bad.fa"]).outcome = Outcome.exit 1 ∧
    (main exampleWorld ["prog"]).outcome = Outcome.exit 1 ∧
    main exampleWorld ["prog", "-R", "2", "two.fa"] =
      { out := [Event.fopen "two.fa", Event.progressDot, Event.recordCount 2,
          Event.fopen "two.fa", Event.progressDot, Event.recordCount 2,
          Event.totalTime, Event.averageTime, Event.recordsProcessed 2 "two.fa"],
        outcome := Outcome.exit 1 } := by
  decide

end LLHeadTail
